import Mathlib

/-!
Verification of the spellb00k core against its specification.

The definitions below are a shallow embedding, translated from the
TypeScript sources:
  * `src/services/llmService.ts`   (dispatcher, plan parser, sequence workflow)
  * `src/services/chapterService.ts` and `src/services/projectService.ts`
  * `src/providers/types.ts`, `openaiProvider`, `ollamaProvider`, `lmstudioProvider`
  * `src/lib/database.ts` (schema: tables and the updatedAt triggers)

JavaScript strings are modelled as Lean `String`/`List Char`; the character
class of the regex `\s` and of `String.prototype.trim` is modelled by the
ASCII whitespace characters (the inputs of interest are ASCII).  Network and
database side effects are modelled by explicit oracle parameters: a value of
an oracle type stands for the outcome the external world produced for one
call.  Fallible operations return `Option`/`Bool` exactly where the source
returns `null`/booleans.
-/

namespace Spellbook

/-! ### JavaScript string helpers -/

/-- ASCII approximation of the JS whitespace class used by `trim` and `\s`. -/
def isJsWs (c : Char) : Bool :=
  c = ' ' || c = '\t' || c = '\n' || c = '\r' || c = '\x0b' || c = '\x0c'

/-- `String.prototype.trim` on a character list. -/
def jsTrimList (cs : List Char) : List Char :=
  ((cs.dropWhile isJsWs).reverse.dropWhile isJsWs).reverse

/-- `String.prototype.trim`. -/
def jsTrim (s : String) : String :=
  ⟨jsTrimList s.data⟩

/-- Strip a literal from the front of a character list
(`none` when the list does not start with it). -/
def dropLit : List Char → List Char → Option (List Char)
  | [], cs => some cs
  | _ :: _, [] => none
  | p :: ps, c :: cs => if c = p then dropLit ps cs else none

/-- `String.prototype.startsWith` on character lists. -/
def startsWithL (p cs : List Char) : Bool :=
  (dropLit p cs).isSome

/-- `response.split('\n')`, accumulator form. -/
def splitLinesAux : List Char → List Char → List String
  | [], acc => [⟨acc.reverse⟩]
  | c :: rest, acc =>
      if c = '\n' then ⟨acc.reverse⟩ :: splitLinesAux rest []
      else splitLinesAux rest (c :: acc)

/-- `response.split('\n')`. -/
def splitLines (s : String) : List String :=
  splitLinesAux s.data []

/-! ### The plan response parser (`llmService.parseEbookPlanResponse`) -/

/-- One parsed chapter draft (`Partial<Chapter>` as built by the parser:
`title`, `description`, `content` and `order` are always set). -/
structure Draft where
  title : String
  description : String
  content : String
  order : Nat
deriving Repr, DecidableEq

/-- JS regex line terminators, which the dot of `(.*)` does not match
(`\n`, `\r` and the two Unicode line separators). -/
def isLineTerm (c : Char) : Bool :=
  c = '\n' || c = '\r' || c = '\u2028' || c = '\u2029'

/-- The regex `/^Chapter\s+\d+:\s*(.*)/` applied to one (already trimmed)
line: returns the captured group when the line matches.  Because the
character classes `\s` and `\d` are disjoint and the literal `:` belongs to
neither, greedy maximal munch is equivalent to the backtracking semantics:
`\s*` consumes the maximal whitespace run after the colon (including any
`\r` inside it), and the capture `(.*)` then extends to the first line
terminator — JS `.` does not match `\r`, which can survive `split('\n')`
and `trim` when it sits in the middle of a line. -/
def matchChapterRegex (cs : List Char) : Option (List Char) :=
  match dropLit "Chapter".data cs with
  | none => none
  | some rest =>
      if (rest.takeWhile isJsWs).isEmpty then none
      else
        let rest2 := rest.dropWhile isJsWs
        if (rest2.takeWhile Char.isDigit).isEmpty then none
        else
          match rest2.dropWhile Char.isDigit with
          | ':' :: rest3 => some ((rest3.dropWhile isJsWs).takeWhile fun c => !isLineTerm c)
          | _ => none

/-- Title of a new draft for a header line `t` (already trimmed):
`titleMatch ? titleMatch[1].trim() : 'Untitled Chapter'`, on lists. -/
def headerTitleL (cs : List Char) : List Char :=
  match matchChapterRegex cs with
  | some g => jsTrimList g
  | none => "Untitled Chapter".data

/-- Title of a new draft for a header line (string version). -/
def headerTitle (t : String) : String :=
  ⟨headerTitleL t.data⟩

/-- Parser state: the finished drafts, the draft under construction
(`none` models the initial empty object `{}`, whose `title` is undefined)
and the `isDescription` flag. -/
structure ParseState where
  chapters : List Draft
  cur : Option Draft
  isDescription : Bool

/-- The push performed at a new "Chapter" header: the in-progress draft is
appended when `isDescription` is set and its title is truthy. -/
def pushCurrent (st : ParseState) : List Draft :=
  match st.cur with
  | some d => if st.isDescription && d.title != "" then st.chapters ++ [d] else st.chapters
  | none => st.chapters

/-- The "Description:" marker branch: only acts when the in-progress
draft's title is truthy; sets the description to the trimmed text after
the 12-character marker and enters accumulation. -/
def descStep (st : ParseState) (t : String) : ParseState :=
  match st.cur with
  | some d =>
      if d.title != "" then
        { st with cur := some { d with description := jsTrim ⟨t.data.drop 12⟩ }
                  isDescription := true }
      else st
  | none => st

/-- The accumulation branch for any other line: space-append the trimmed
line to the description while accumulating with a truthy title. -/
def accumStep (st : ParseState) (t : String) : ParseState :=
  match st.cur with
  | some d =>
      if st.isDescription && d.title != "" then
        { st with cur := some { d with description := d.description ++ " " ++ t } }
      else st
  | none => st

/-- One iteration of the parser loop body, for one input line. -/
def parseStep (st : ParseState) (line : String) : ParseState :=
  let t := jsTrim line
  if startsWithL "Chapter".data t.data then
    { chapters := pushCurrent st
      cur := some { title := headerTitle t, description := "", content := ""
                    order := (pushCurrent st).length }
      isDescription := false }
  else if startsWithL "Description:".data t.data then descStep st t
  else accumStep st t

/-- End of input: finalize the trailing draft when its title is truthy. -/
def finalizeDrafts (st : ParseState) : List Draft :=
  match st.cur with
  | some d => if d.title != "" then st.chapters ++ [d] else st.chapters
  | none => st.chapters

/-- The full (pre-filter) draft list produced by the parser loop. -/
def planDrafts (response : String) : List Draft :=
  finalizeDrafts ((splitLines response).foldl parseStep ⟨[], none, false⟩)

/-- The post-processing filter: drafts with truthy title and description. -/
def validDrafts (response : String) : List Draft :=
  (planDrafts response).filter fun c => c.title != "" && c.description != ""

/-- `llmService.parseEbookPlanResponse`: `null` when nothing survives the
filter, the surviving drafts otherwise. -/
def parseEbookPlanResponse (response : String) : Option (List Draft) :=
  if (validDrafts response).length > 0 then some (validDrafts response) else none

/-! ### Entity store model (`src/lib/database.ts` schema + services)

Rows of the `projects` and `chapters` tables.  `id` is the AUTOINCREMENT
rowid, timestamps are abstracted to naturals, and the `DBState.now` field is
the value `CURRENT_TIMESTAMP` would produce for the next write (the
`update_*_updatedAt` triggers set `updatedAt` on every UPDATE). -/

structure Chapter where
  id : Nat
  projectId : Nat
  title : String
  description : String
  content : Option String
  order : Int
  createdAt : Nat
  updatedAt : Nat
deriving Repr, DecidableEq

structure Project where
  id : Nat
  name : String
  description : Option String
  parameters : Option String
  createdAt : Nat
  updatedAt : Nat
deriving Repr, DecidableEq

/-- The in-memory sql.js database: table contents, the next AUTOINCREMENT
rowid, and the current timestamp. -/
structure DBState where
  projects : List Project
  chapters : List Chapter
  nextId : Nat
  now : Nat
deriving Repr, DecidableEq

/-- `SELECT * FROM chapters WHERE id = ?` (single row). -/
def getChapterById (db : DBState) (id : Nat) : Option Chapter :=
  db.chapters.find? fun c => c.id = id

/-- `SELECT * FROM projects WHERE id = ?` (single row). -/
def getProjectById (db : DBState) (id : Nat) : Option Project :=
  db.projects.find? fun p => p.id = id

/-- SQL `MAX` aggregate: `NULL` on the empty set. -/
def sqlMax : List Int → Option Int
  | [] => none
  | x :: xs =>
      match sqlMax xs with
      | none => some x
      | some m => some (max x m)

/-- The `order` column of the rows `WHERE projectId = ?`. -/
def siblingOrders (db : DBState) (pid : Nat) : List Int :=
  (db.chapters.filter fun c => c.projectId = pid).map Chapter.order

/-- `SELECT MAX("order") FROM chapters WHERE projectId = ?`. -/
def maxOrderFor (db : DBState) (pid : Nat) : Option Int :=
  sqlMax (siblingOrders db pid)

/-- `chapterService.createChapter`: compute the next order, INSERT the row,
read it back via `last_insert_rowid()`. -/
def createChapter (db : DBState) (pid : Nat) (title description : String)
    (content : Option String) : DBState × Option Chapter :=
  let nextOrder := (maxOrderFor db pid).getD (-1) + 1
  let newCh : Chapter :=
    { id := db.nextId, projectId := pid, title := title, description := description
      content := content, order := nextOrder, createdAt := db.now, updatedAt := db.now }
  let db2 := { db with chapters := db.chapters ++ [newCh], nextId := db.nextId + 1 }
  (db2, getChapterById db2 newCh.id)

/-- Insertion into a list sorted by `order` (stable). -/
def insertByOrder (c : Chapter) : List Chapter → List Chapter
  | [] => [c]
  | d :: ds => if c.order ≤ d.order then c :: d :: ds else d :: insertByOrder c ds

/-- `ORDER BY "order" ASC`. -/
def sortByOrder (l : List Chapter) : List Chapter :=
  l.foldr insertByOrder []

/-- `chapterService.getChaptersByProjectId`. -/
def getChaptersByProjectId (db : DBState) (pid : Nat) : List Chapter :=
  sortByOrder (db.chapters.filter fun c => c.projectId = pid)

/-- The sparse field set accepted by `chapterService.updateChapter`. -/
structure ChapterUpdates where
  title : Option String := none
  description : Option String := none
  content : Option String := none
  order : Option Int := none
deriving Repr, DecidableEq

/-- `fieldsToUpdate.length === 0`. -/
def ChapterUpdates.isEmpty (u : ChapterUpdates) : Bool :=
  u.title.isNone && u.description.isNone && u.content.isNone && u.order.isNone

/-- Effect of the UPDATE statement on the matching row, including the
`update_chapter_updatedAt` trigger. -/
def applyChapterUpdates (u : ChapterUpdates) (now : Nat) (c : Chapter) : Chapter :=
  { c with
    title := u.title.getD c.title
    description := u.description.getD c.description
    content := match u.content with | some s => some s | none => c.content
    order := u.order.getD c.order
    updatedAt := now }

/-- `chapterService.updateChapter`.  `runFails` is the outcome of the
`dbService.run` call (an exception is caught and converted to `null`). -/
def updateChapter (db : DBState) (id : Nat) (u : ChapterUpdates) (runFails : Bool) :
    DBState × Option Chapter :=
  if u.isEmpty then (db, getChapterById db id)
  else if runFails then (db, none)
  else
    let db2 := { db with
      chapters := db.chapters.map fun c =>
        if c.id = id then applyChapterUpdates u db.now c else c }
    (db2, getChapterById db2 id)

/-- The sparse field set accepted by `projectService.updateProject`
(`parameters` already serialized by `JSON.stringify`). -/
structure ProjectUpdates where
  name : Option String := none
  description : Option String := none
  parameters : Option String := none
deriving Repr, DecidableEq

def ProjectUpdates.isEmpty (u : ProjectUpdates) : Bool :=
  u.name.isNone && u.description.isNone && u.parameters.isNone

/-- Effect of the UPDATE statement on the matching row, including the
`update_project_updatedAt` trigger. -/
def applyProjectUpdates (u : ProjectUpdates) (now : Nat) (p : Project) : Project :=
  { p with
    name := u.name.getD p.name
    description := match u.description with | some s => some s | none => p.description
    parameters := match u.parameters with | some s => some s | none => p.parameters
    updatedAt := now }

/-- `projectService.updateProject`. -/
def updateProject (db : DBState) (id : Nat) (u : ProjectUpdates) (runFails : Bool) :
    DBState × Option Project :=
  if u.isEmpty then (db, getProjectById db id)
  else if runFails then (db, none)
  else
    let db2 := { db with
      projects := db.projects.map fun p =>
        if p.id = id then applyProjectUpdates u db.now p else p }
    (db2, getProjectById db2 id)

/-- `UPDATE chapters SET "order" = ? WHERE id = ?` (with its trigger). -/
def setChapterOrder (db : DBState) (id : Nat) (ord : Int) : DBState :=
  { db with chapters := db.chapters.map fun c =>
      if c.id = id then { c with order := ord, updatedAt := db.now } else c }

/-- Loop body of `chapterService.updateChapterOrder`: `f k` tells whether
the `k`-th remaining `dbService.run` call throws (a throw leaves the store
untouched and aborts the loop through the catch). -/
def updateChapterOrderGo : (Nat → Bool) → DBState → List (Nat × Int) → DBState × Bool
  | _, db, [] => (db, true)
  | f, db, (i, o) :: rest =>
      if f 0 then (db, false)
      else updateChapterOrderGo (fun n => f (n + 1)) (setChapterOrder db i o) rest

/-- `chapterService.updateChapterOrder`. -/
def updateChapterOrder (db : DBState) (runFails : Nat → Bool)
    (updates : List (Nat × Int)) : DBState × Bool :=
  if updates.length = 0 then (db, true)
  else updateChapterOrderGo runFails db updates

/-- Sequential application of (chapterId, newOrder) pairs, the reference
function the batch update is compared with. -/
def applyOrderUpdates (db : DBState) (l : List (Nat × Int)) : DBState :=
  l.foldl (fun d p => setChapterOrder d p.1 p.2) db

/-! ### Provider layer (`src/providers/*`) -/

/-- `ProviderConfig` from `src/providers/types.ts`.  The settings layer
always supplies strings (empty string for unset), so the JS falsiness tests
`!config.apiKey` / `!config.baseUrl` are `= ""`. -/
structure ProviderConfig where
  apiKey : String
  baseUrl : String
  model : String
deriving Repr, DecidableEq

/-- One role-tagged chat message. -/
structure ChatMsg where
  role : String
  content : String
deriving Repr, DecidableEq

/-- Tail shared verbatim by all three providers' `getChatCompletion`:
`net` is the outcome of the backend call (`none` = the request threw;
`some c` = it returned with `c = choices[0]?.message?.content`, `none`
for missing or null content), and `!responseContent` maps missing or
empty text to `null`. -/
def completionText (net : Option (Option String)) : Option String :=
  match net with
  | none => none
  | some content =>
      match content with
      | some s => if s = "" then none else some s
      | none => none

/-- `openaiProvider.getChatCompletion` (`getClient` throws without an API
key; the exception is caught and becomes `null`). -/
def openaiGetChatCompletion (_msgs : List ChatMsg) (cfg : ProviderConfig)
    (net : Option (Option String)) : Option String :=
  if cfg.apiKey = "" then none else completionText net

/-- `ollamaProvider.getChatCompletion` (`getClient` requires `baseUrl`
instead of `apiKey`). -/
def ollamaGetChatCompletion (_msgs : List ChatMsg) (cfg : ProviderConfig)
    (net : Option (Option String)) : Option String :=
  if cfg.baseUrl = "" then none else completionText net

/-- `lmstudioProvider.getChatCompletion`. -/
def lmstudioGetChatCompletion (_msgs : List ChatMsg) (cfg : ProviderConfig)
    (net : Option (Option String)) : Option String :=
  if cfg.baseUrl = "" then none else completionText net

/-- Body of the `/api/tags` response: either `response.json()` throws, or
it parses to an object whose `models` field is absent (`none`) or holds the
list of `name` values. -/
inductive TagsBody
  | badJson
  | json (models : Option (List String))
deriving Repr, DecidableEq

/-- Outcome of the native `/api/tags` fetch: the fetch may reject, or
return a response with its HTTP ok flag and a body. -/
inductive TagsFetch
  | netError
  | response (ok : Bool) (body : TagsBody)
deriving Repr, DecidableEq

/-- Insertion into a sorted string list (JS `Array.prototype.sort`,
default lexicographic comparison). -/
def insertStr (s : String) : List String → List String
  | [] => [s]
  | t :: ts => if s ≤ t then s :: t :: ts else t :: insertStr s ts

/-- JS `array.sort()` on strings. -/
def sortStrings (l : List String) : List String :=
  l.foldr insertStr []

/-- Failure of the native listing attempt: fetch rejection, non-ok HTTP
status, or a body that fails JSON parsing — exactly the cases that throw
inside the `try` block of `ollamaProvider.listModels`. -/
def isNativeFailure : TagsFetch → Bool
  | .netError => true
  | .response ok body =>
      !ok || (match body with | .badJson => true | .json _ => false)

/-- `ollamaProvider.listModels`.  `native` is the outcome of the
`/api/tags` fetch; `generic` is the outcome of the fallback
`openai.models.list()` call (`none` = it threw).  A parsed body without a
`models` field yields `[]` via `data?.models?.map(...) || []`. -/
def ollamaListModels (cfg : ProviderConfig) (native : TagsFetch)
    (generic : Option (List String)) : Option (List String) :=
  if cfg.baseUrl = "" then none
  else
    match native with
    | .response true (.json ms) => some (sortStrings (ms.getD []))
    | _ =>
        match generic with
        | some l => some (sortStrings l)
        | none => none

/-! ### Dispatcher (`src/services/llmService.ts`) -/

/-- The capability record of `src/providers/types.ts`: `testConnection` is
an optional capability.  Method bodies are pure outcome functions — each
concrete variant closes over the oracles describing its backend. -/
structure LlmProvider where
  listModels : ProviderConfig → Option (List String)
  getChatCompletion : List ChatMsg → ProviderConfig → Option String
  testConnection : Option (ProviderConfig → Bool)

/-- `LlmSettings` from `src/lib/settingsService.ts` (all fields strings,
empty string for unset). -/
structure LlmSettings where
  provider : String
  apiKey : String
  baseUrl : String
  model : String
deriving Repr, DecidableEq

/-- `createProviderConfig`: fall back to a per-provider default model when
the configured model is blank. -/
def createProviderConfig (s : LlmSettings) : ProviderConfig :=
  let model :=
    if s.model = "" then
      if s.provider = "ollama" then "llama3"
      else if s.provider = "lmstudio" then "loaded-model-id"
      else "gpt-3.5-turbo"
    else s.model
  { apiKey := s.apiKey, baseUrl := s.baseUrl, model := model }

/-- `llmService.listModels`, with the result of `getActiveProvider`
passed explicitly (`none` = unknown provider name). -/
def llmListModels (provider : Option LlmProvider) (settings : LlmSettings) :
    Option (List String) :=
  match provider with
  | none => none
  | some p => p.listModels (createProviderConfig settings)

/-- `llmService.testConnection`: when the resolved provider has no
`testConnection` capability (or is null), fall back to
`this.listModels() !== null`. -/
def llmTestConnection (provider : Option LlmProvider) (settings : LlmSettings) : Bool :=
  match provider with
  | none => (llmListModels none settings).isSome
  | some p =>
      match p.testConnection with
      | none => (llmListModels (some p) settings).isSome
      | some tc => tc (createProviderConfig settings)

/-! ### Sequence generation workflow (`llmService.generateChapterSequenceContent`) -/

/-- `llmService.handleChapterContentResponse`.  `updateChapter` catches its
own store errors and returns `null` instead of throwing, so the `catch`
branch of this function is unreachable: the boolean is always `true`. -/
def handleChapterContentResponse (db : DBState) (response : String)
    (chapterId : Nat) (runFails : Bool) : DBState × Bool :=
  ((updateChapter db chapterId { content := some response } runFails).1, true)

/-- The loop of `generateChapterSequenceContent` from the start index.
`gen i` is the outcome of the provider call of loop iteration `i`
(`processLLMPrompt` applied to the prompt built for that chapter — prompt
text and threaded previous-chapter context only shape that call, which the
oracle accounts for); `saveRunFails i` is the outcome of the store write of
iteration `i`. -/
def seqGo (gen : Nat → Option String) (saveRunFails : Nat → Bool) :
    DBState → List Chapter → Nat → Bool → DBState × Bool
  | db, [], _, success => (db, success)
  | db, c :: rest, i, success =>
      match gen i with
      | some content =>
          let r := handleChapterContentResponse db content c.id (saveRunFails i)
          seqGo gen saveRunFails r.1 rest (i + 1) (success && r.2)
      | none => seqGo gen saveRunFails db rest (i + 1) false

/-- `allChapters.findIndex(c => c.id === startChapterId)` as an option. -/
def findIdxById (l : List Chapter) (cid : Nat) : Option Nat :=
  l.findIdx? fun c => c.id = cid

/-- `llmService.generateChapterSequenceContent`. -/
def generateChapterSequenceContent (db : DBState) (projectId startChapterId : Nat)
    (gen : Nat → Option String) (saveRunFails : Nat → Bool) : DBState × Bool :=
  match getProjectById db projectId with
  | none => (db, false)
  | some _ =>
      let allChapters := getChaptersByProjectId db projectId
      match findIdxById allChapters startChapterId with
      | none => (db, false)
      | some startIdx => seqGo gen saveRunFails db (allChapters.drop startIdx) startIdx true

/-! ### Concrete stores used by witnesses -/

def exProject : Project :=
  { id := 1, name := "P", description := none, parameters := none, createdAt := 0, updatedAt := 0 }

def exChapter (i : Nat) (ord : Int) : Chapter :=
  { id := i, projectId := 1, title := "T", description := "D", content := none
    createdAt := 0, updatedAt := 0, order := ord }

/-- One project, one chapter. -/
def exDb1 : DBState :=
  { projects := [exProject], chapters := [exChapter 10 0], nextId := 11, now := 5 }

/-- One project, three chapters with orders 0, 1, 2. -/
def exDb3 : DBState :=
  { projects := [exProject]
    chapters := [exChapter 10 0, exChapter 11 1, exChapter 12 2]
    nextId := 13, now := 5 }

/-- Store with one project and no chapters. -/
def exDb0 : DBState :=
  { projects := [exProject], chapters := [], nextId := 2, now := 5 }

/-- Run-failure oracle used by the C3 witness: only the second call throws. -/
def exRunFails : Nat → Bool := fun k => k = 1

/-- Concrete provider variant without `testConnection`, whose backend
reports an empty model list. -/
def exProviderNoTest : LlmProvider :=
  { listModels := fun _ => some []
    getChatCompletion := fun _ _ => none
    testConnection := none }

def exSettings : LlmSettings :=
  { provider := "lmstudio", apiKey := "", baseUrl := "http://localhost:1234/v1", model := "" }

def exOllamaCfg : ProviderConfig :=
  { apiKey := "", baseUrl := "http://localhost:11434", model := "llama3" }

/-- Provider-call oracle for the C4 witness: the call for loop index 1
(the start chapter) fails, later calls succeed. -/
def exGen : Nat → Option String := fun i => if i = 1 then none else some "c3"

/-- Parser-loop invariant: the finished drafts carry orders
`0, 1, ..., n-1` and the in-progress draft carries order `n`. -/
def ordersOk (st : ParseState) : Prop :=
  st.chapters.map Draft.order = List.range st.chapters.length ∧
  ∀ d, st.cur = some d → d.order = st.chapters.length

/-! ## Claim theorems -/

/-- C1 (counterexample): on the spec's exact plan input the parser does
not return the claimed pair of drafts — the blank separator line is
space-appended to the first description while `isDescription` is set, so
that description carries a trailing space. -/
theorem c1_counterexample :
    parseEbookPlanResponse "Chapter 1: Intro\nDescription: Sets the stage.\n\nChapter 2: Middle\nDescription: Builds tension." ≠
      some [⟨"Intro", "Sets the stage.", "", 0⟩, ⟨"Middle", "Builds tension.", "", 1⟩] := by
  decide

/-- C1 (amended): on that exact input the parser yields two drafts with
titles "Intro"/"Middle" and orders 0/1, but the first description is
"Sets the stage. " with a trailing space contributed by the blank
separator line. -/
theorem c1_amended :
    parseEbookPlanResponse "Chapter 1: Intro\nDescription: Sets the stage.\n\nChapter 2: Middle\nDescription: Builds tension." =
      some [⟨"Intro", "Sets the stage. ", "", 0⟩, ⟨"Middle", "Builds tension.", "", 1⟩] := by
  decide

/-- C2 (counterexample): a draft that is filtered out (its description
marker line carries no text) leaves a gap in the `order` values: this
input returns a single draft whose `order` is 1, not its index 0 in the
returned list. -/
theorem c2_counterexample :
    ((parseEbookPlanResponse "Chapter 1: A\nDescription:\nChapter 2: B\nDescription: d").map
        fun l => l.map Draft.order) = some [1] ∧ ([1] : List Nat) ≠ [0] := by
  constructor
  · decide
  · decide

/-- C4 (counterexample): with one chapter whose generation succeeds but
whose store write throws, the workflow still returns `true` and the
chapter's content is left unpersisted — `handleChapterContentResponse`
ignores `updateChapter`'s null result, so a persistence failure does not
make the overall return false. -/
theorem c4_counterexample :
    generateChapterSequenceContent exDb1 1 10 (fun _ => some "text") (fun _ => true) =
      (exDb1, true) ∧
    (getChapterById exDb1 10).map Chapter.content = some none := by
  constructor
  · decide
  · decide

/-- C8 (counterexample): a line that begins with "Chapter" and contains a
colon but does not match `/^Chapter\s+\d+:/` gets the placeholder title,
not the text after its first colon. -/
theorem c8_counterexample :
    parseEbookPlanResponse "Chapterhouse: Dune\nDescription: d" =
      some [⟨"Untitled Chapter", "d", "", 0⟩] ∧
    ("Untitled Chapter" : String) ≠ jsTrim "Dune" := by
  constructor
  · decide
  · decide

/-- C6: updating a chapter or a project with the empty field set runs no
SQL statement: the store is returned unchanged (so `updatedAt` cannot be
bumped by the triggers) and the current entity is returned, regardless of
whether a write would have failed. -/
theorem c6_empty_update_noop (db : DBState) (cid pid : Nat) (ch : Chapter) (p : Project)
    (rf1 rf2 : Bool) (hc : getChapterById db cid = some ch)
    (hp : getProjectById db pid = some p) :
    updateChapter db cid {} rf1 = (db, some ch) ∧
    updateProject db pid {} rf2 = (db, some p) := by
  have h1 : (({} : ChapterUpdates)).isEmpty = true := rfl
  have h2 : (({} : ProjectUpdates)).isEmpty = true := rfl
  constructor
  · simp [updateChapter, h1, hc]
  · simp [updateProject, h2, hp]

/-- C6 (witness): concrete store with one project and one chapter. -/
theorem c6_empty_update_noop_witness :
    getChapterById exDb1 10 = some (exChapter 10 0) ∧
    getProjectById exDb1 1 = some exProject ∧
    updateChapter exDb1 10 {} false = (exDb1, some (exChapter 10 0)) ∧
    updateProject exDb1 1 {} true = (exDb1, some exProject) := by
  have hc : getChapterById exDb1 10 = some (exChapter 10 0) := by decide
  have hp : getProjectById exDb1 1 = some exProject := by decide
  obtain ⟨h1, h2⟩ := c6_empty_update_noop exDb1 10 1 (exChapter 10 0) exProject false true hc hp
  exact ⟨hc, hp, h1, h2⟩

/-- C7: when the resolved provider lacks the `testConnection` capability,
the dispatcher's `testConnection` is true exactly when the dispatcher's
`listModels` returns a non-null (possibly empty) list. -/
theorem c7_testConnection_fallback (p : LlmProvider) (s : LlmSettings)
    (h : p.testConnection = none) :
    llmTestConnection (some p) s = true ↔ llmListModels (some p) s ≠ none := by
  simp only [llmTestConnection, h]
  exact Option.isSome_iff_ne_none

/-- C7 (witness): the fallback rule at a concrete variant and settings;
the empty model list still counts as a successful connection test. -/
theorem c7_testConnection_fallback_witness :
    (llmTestConnection (some exProviderNoTest) exSettings = true ↔
      llmListModels (some exProviderNoTest) exSettings ≠ none) ∧
    llmTestConnection (some exProviderNoTest) exSettings = true := by
  refine ⟨c7_testConnection_fallback exProviderNoTest exSettings rfl, rfl⟩

/-- C9: `ollamaProvider.listModels` (with a configured base URL) serves
the sorted native `models` names whenever the native `/api/tags` attempt
returns an ok response with a parseable body; on any failure of that
attempt (fetch rejection, non-ok status, unparseable body) the result is
exactly the generic `openai.models.list()` fallback outcome, in
particular `null` when that also fails — and the function is total, so no
exception reaches the caller. -/
theorem c9_ollama_listModels_fallback (cfg : ProviderConfig) (native : TagsFetch)
    (generic : Option (List String)) (h : cfg.baseUrl ≠ "") :
    (isNativeFailure native = true →
      ollamaListModels cfg native generic = generic.map sortStrings) ∧
    (∀ ms, native = .response true (.json ms) →
      ollamaListModels cfg native generic = some (sortStrings (ms.getD []))) ∧
    (isNativeFailure native = true → generic = none →
      ollamaListModels cfg native generic = none) := by
  refine ⟨?_, ?_, ?_⟩
  · intro hf
    unfold ollamaListModels
    rw [if_neg h]
    cases native with
    | netError => cases generic <;> simp
    | response ok body =>
        cases ok with
        | false => cases generic <;> simp
        | true =>
            cases body with
            | badJson => cases generic <;> simp
            | json ms => simp [isNativeFailure] at hf
  · intro ms hms
    subst hms
    unfold ollamaListModels
    rw [if_neg h]
  · intro hf hg
    subst hg
    unfold ollamaListModels
    rw [if_neg h]
    cases native with
    | netError => rfl
    | response ok body =>
        cases ok with
        | false => rfl
        | true =>
            cases body with
            | badJson => rfl
            | json ms => simp [isNativeFailure] at hf

/-- C9 (witness): concrete config; the native fetch rejects and the
generic fallback returns a list, which is served sorted. -/
theorem c9_ollama_listModels_fallback_witness :
    isNativeFailure .netError = true ∧
    ollamaListModels exOllamaCfg .netError (some ["b", "a"]) =
      (some ["b", "a"]).map sortStrings ∧
    ollamaListModels exOllamaCfg .netError none = none := by
  have h := c9_ollama_listModels_fallback exOllamaCfg .netError (some ["b", "a"]) (by decide)
  have h2 := c9_ollama_listModels_fallback exOllamaCfg .netError none (by decide)
  exact ⟨rfl, h.1 rfl, h2.2.2 rfl rfl⟩

/-! Helper lemmas for the store theorems. -/

/-- `find?` by id commutes with mapping an id-preserving function. -/
theorem find?_id_map (f : Chapter → Chapter) (hf : ∀ c, (f c).id = c.id) (id : Nat) :
    ∀ l : List Chapter,
      (l.map f).find? (fun c => c.id = id) = (l.find? fun c => c.id = id).map f := by
  intro l
  induction l with
  | nil => rfl
  | cons c rest ih =>
      by_cases hc : c.id = id
      · rw [List.map_cons, List.find?_cons_of_pos _ (by simp [hf, hc]),
          List.find?_cons_of_pos _ (by simp [hc])]
        rfl
      · rw [List.map_cons, List.find?_cons_of_neg _ (by simp [hf, hc]),
          List.find?_cons_of_neg _ (by simp [hc])]
        exact ih

/-- A single batched UPDATE leaves every other chapter row untouched. -/
theorem getChapterById_setChapterOrder_other (db : DBState) (i : Nat) (o : Int)
    (id : Nat) (h : id ≠ i) :
    getChapterById (setChapterOrder db i o) id = getChapterById db id := by
  unfold getChapterById setChapterOrder
  rw [find?_id_map _ (fun c => by split <;> rfl) id]
  cases hfind : db.chapters.find? (fun c => decide (c.id = id)) with
  | none => rfl
  | some c =>
      have hcid : c.id = id := by simpa using List.find?_some hfind
      have hfc : (if c.id = i then { c with order := o, updatedAt := db.now } else c) = c :=
        if_neg (by rw [hcid]; exact h)
      show some (if c.id = i then { c with order := o, updatedAt := db.now } else c) = some c
      rw [hfc]

/-- Applying a list of (id, order) pairs leaves chapters whose id is
mentioned by none of them untouched. -/
theorem getChapterById_applyOrderUpdates_other (id : Nat) :
    ∀ (l : List (Nat × Int)) (db : DBState), id ∉ l.map Prod.fst →
      getChapterById (applyOrderUpdates db l) id = getChapterById db id := by
  intro l
  induction l with
  | nil => intro db _; rfl
  | cons p rest ih =>
      intro db hnotin
      rw [List.map_cons, List.mem_cons] at hnotin
      push_neg at hnotin
      have hstep : applyOrderUpdates db (p :: rest) =
          applyOrderUpdates (setChapterOrder db p.1 p.2) rest := rfl
      rw [hstep, ih (setChapterOrder db p.1 p.2) hnotin.2,
        getChapterById_setChapterOrder_other db p.1 p.2 id hnotin.1]

/-- When no run call fails, the loop applies every pair and reports true. -/
theorem updateChapterOrderGo_all_ok :
    ∀ (updates : List (Nat × Int)) (f : Nat → Bool) (db : DBState),
      (∀ j, j < updates.length → f j = false) →
      updateChapterOrderGo f db updates = (applyOrderUpdates db updates, true) := by
  intro updates
  induction updates with
  | nil => intro f db _; rfl
  | cons p rest ih =>
      intro f db hall
      obtain ⟨i, o⟩ := p
      have h0 : f 0 = false := hall 0 (by simp)
      simp only [updateChapterOrderGo, if_neg (by simp [h0] : ¬f 0 = true)]
      rw [ih (fun n => f (n + 1)) (setChapterOrder db i o)
        (fun j hj => hall (j + 1) (by simpa using Nat.succ_lt_succ hj))]
      rfl

/-- When the k-th run call is the first to fail, the loop stops there with
exactly the first k pairs applied, and reports false. -/
theorem updateChapterOrderGo_first_fail :
    ∀ (updates : List (Nat × Int)) (f : Nat → Bool) (db : DBState) (k : Nat),
      k < updates.length → f k = true → (∀ j, j < k → f j = false) →
      updateChapterOrderGo f db updates =
        (applyOrderUpdates db (updates.take k), false) := by
  intro updates
  induction updates with
  | nil => intro f db k hk _ _; exact absurd hk (by simp)
  | cons p rest ih =>
      intro f db k hk hfk hprev
      obtain ⟨i, o⟩ := p
      cases k with
      | zero =>
          simp only [updateChapterOrderGo, if_pos hfk]
          rfl
      | succ k' =>
          have h0 : f 0 = false := hprev 0 (Nat.succ_pos k')
          simp only [updateChapterOrderGo, if_neg (by simp [h0] : ¬f 0 = true)]
          rw [ih (fun n => f (n + 1)) (setChapterOrder db i o) k'
            (Nat.lt_of_succ_lt_succ hk) hfk
            (fun j hj => hprev (j + 1) (Nat.succ_lt_succ hj))]
          rfl

/-- C3: the batch chapter-order update applies its pairs sequentially and
is not atomic — if the k-th run call is the first to fail, the result is
exactly the store with the first k pairs applied and the boolean false
(chapters not named by the applied pairs are untouched), and if no call
fails every pair is applied and the result is true. -/
theorem c3_updateChapterOrder_nonatomic (db : DBState) (runFails : Nat → Bool)
    (updates : List (Nat × Int)) :
    (∀ k, k < updates.length → runFails k = true →
      (∀ j, j < k → runFails j = false) →
      updateChapterOrder db runFails updates =
        (applyOrderUpdates db (updates.take k), false) ∧
      ∀ id, id ∉ (updates.take k).map Prod.fst →
        getChapterById (updateChapterOrder db runFails updates).1 id =
          getChapterById db id) ∧
    ((∀ j, j < updates.length → runFails j = false) →
      updateChapterOrder db runFails updates = (applyOrderUpdates db updates, true)) := by
  constructor
  · intro k hk hfk hprev
    have hne : ¬updates.length = 0 := by
      intro h0
      rw [h0] at hk
      exact absurd hk (by simp)
    have hmain : updateChapterOrder db runFails updates =
        (applyOrderUpdates db (updates.take k), false) := by
      unfold updateChapterOrder
      rw [if_neg hne]
      exact updateChapterOrderGo_first_fail updates runFails db k hk hfk hprev
    refine ⟨hmain, ?_⟩
    intro id hid
    rw [hmain]
    exact getChapterById_applyOrderUpdates_other id (updates.take k) db hid
  · intro hall
    unfold updateChapterOrder
    by_cases h0 : updates.length = 0
    · rw [if_pos h0, List.length_eq_zero.mp h0]
      rfl
    · rw [if_neg h0]
      exact updateChapterOrderGo_all_ok updates runFails db hall

/-- C3 (witness): three pairs against the three-chapter store, failing at
the middle pair — only the first pair is applied, the result is false, and
the chapter named by the unattempted pair is unchanged. -/
theorem c3_updateChapterOrder_nonatomic_witness :
    updateChapterOrder exDb3 exRunFails [(10, 2), (11, 99), (12, 0)] =
      (applyOrderUpdates exDb3 [(10, 2)], false) ∧
    getChapterById (updateChapterOrder exDb3 exRunFails [(10, 2), (11, 99), (12, 0)]).1 12 =
      getChapterById exDb3 12 := by
  have h := (c3_updateChapterOrder_nonatomic exDb3 exRunFails
    [(10, 2), (11, 99), (12, 0)]).1 1 (by decide) (by decide) (by decide)
  exact ⟨h.1, h.2 12 (by decide)⟩

/-- The SQL MAX aggregate is `NULL` only on the empty column. -/
theorem sqlMax_none_iff (l : List Int) : sqlMax l = none ↔ l = [] := by
  cases l with
  | nil => simp [sqlMax]
  | cons x xs =>
      constructor
      · intro h
        unfold sqlMax at h
        cases hx : sqlMax xs <;> rw [hx] at h <;> exact Option.noConfusion h
      · intro h
        exact absurd h (by simp)

/-- A non-NULL SQL MAX is a member of the column and an upper bound. -/
theorem sqlMax_spec : ∀ (l : List Int) (k : Int), sqlMax l = some k →
    k ∈ l ∧ ∀ x ∈ l, x ≤ k := by
  intro l
  induction l with
  | nil => intro k h; exact Option.noConfusion h
  | cons x xs ih =>
      intro k h
      unfold sqlMax at h
      cases hx : sqlMax xs with
      | none =>
          rw [hx] at h
          have hxk : x = k := Option.some.inj h
          have hxs : xs = [] := (sqlMax_none_iff xs).mp hx
          subst hxk
          subst hxs
          exact ⟨List.mem_singleton.mpr rfl, by simp⟩
      | some m =>
          rw [hx] at h
          have hk : k = max x m := (Option.some.inj h).symm
          obtain ⟨hm_mem, hm_ub⟩ := ih m hx
          subst hk
          constructor
          · rcases max_choice x m with hc | hc
            · rw [hc]; exact List.mem_cons_self x xs
            · rw [hc]; exact List.mem_cons_of_mem x hm_mem
          · intro y hy
            rcases List.mem_cons.mp hy with rfl | hy'
            · exact le_max_left _ _
            · exact le_trans (hm_ub y hy') (le_max_right _ _)

/-- Any member that is an upper bound is the SQL MAX. -/
theorem sqlMax_of_mem_ub (m : Int) : ∀ l : List Int, m ∈ l → (∀ x ∈ l, x ≤ m) →
    sqlMax l = some m := by
  intro l
  induction l with
  | nil => intro h _; exact absurd h (List.not_mem_nil m)
  | cons x xs ih =>
      intro hmem hub
      unfold sqlMax
      cases hx : sqlMax xs with
      | none =>
          have hxs : xs = [] := (sqlMax_none_iff xs).mp hx
          subst hxs
          have hmx : m = x := by simpa using hmem
          show some x = some m
          rw [hmx]
      | some k =>
          obtain ⟨hk_mem, hk_ub⟩ := sqlMax_spec xs k hx
          have h1 : max x k ≤ m :=
            max_le (hub x (List.mem_cons_self x xs))
              (hub k (List.mem_cons_of_mem x hk_mem))
          have h2 : m ≤ max x k := by
            rcases List.mem_cons.mp hmem with rfl | hm'
            · exact le_max_left _ _
            · exact le_trans (hk_ub m hm') (le_max_right _ _)
          show some (max x k) = some m
          rw [le_antisymm h1 h2]

/-- C5: chapter creation appends exactly one new row for the project and
touches no existing row (neither chapters nor projects); the new order is
0 when the project has no chapters, and (maximum sibling order) + 1
otherwise. -/
theorem c5_createChapter_next_order (db : DBState) (pid : Nat) (t dsc : String)
    (cnt : Option String) :
    ∃ newCh : Chapter,
      (createChapter db pid t dsc cnt).1.chapters = db.chapters ++ [newCh] ∧
      (createChapter db pid t dsc cnt).1.projects = db.projects ∧
      newCh.projectId = pid ∧
      (siblingOrders db pid = [] → newCh.order = 0) ∧
      (∀ m : Int, m ∈ siblingOrders db pid →
        (∀ x ∈ siblingOrders db pid, x ≤ m) → newCh.order = m + 1) := by
  refine ⟨_, rfl, rfl, rfl, ?_, ?_⟩
  · intro hempty
    show (maxOrderFor db pid).getD (-1) + 1 = 0
    unfold maxOrderFor
    rw [hempty]
    decide
  · intro m hm hub
    show (maxOrderFor db pid).getD (-1) + 1 = m + 1
    unfold maxOrderFor
    rw [sqlMax_of_mem_ub m (siblingOrders db pid) hm hub]
    rfl

/-- C5 (witness): against the three-chapter store (orders 0,1,2) the new
chapter gets order 3 = 2 + 1; against the empty store it gets order 0. -/
theorem c5_createChapter_next_order_witness :
    (∃ newCh : Chapter,
      (createChapter exDb3 1 "t" "d" none).1.chapters = exDb3.chapters ++ [newCh] ∧
      newCh.order = 2 + 1) ∧
    (∃ newCh0 : Chapter,
      (createChapter exDb0 1 "t" "d" none).1.chapters = exDb0.chapters ++ [newCh0] ∧
      newCh0.order = 0) := by
  constructor
  · obtain ⟨newCh, h1, _, _, _, h5⟩ := c5_createChapter_next_order exDb3 1 "t" "d" none
    exact ⟨newCh, h1, h5 2 (by decide) (by decide)⟩
  · obtain ⟨newCh, h1, _, _, h4, _⟩ := c5_createChapter_next_order exDb0 1 "t" "d" none
    exact ⟨newCh, h1, h4 (by decide)⟩

/-- The shared content guard never yields the empty string. -/
theorem completionText_ne_empty (net : Option (Option String)) :
    completionText net ≠ some "" := by
  unfold completionText
  rcases net with _ | (_ | s)
  · simp
  · simp
  · dsimp only
    split <;> simp_all

/-- C10: no provider's `getChatCompletion` can return the empty string:
a backend completion with missing or empty text content is mapped to
`null` by the `!responseContent` guard, so every non-null result is
non-empty. -/
theorem c10_no_empty_completion (msgs : List ChatMsg) (cfg : ProviderConfig)
    (net : Option (Option String)) :
    openaiGetChatCompletion msgs cfg net ≠ some "" ∧
    ollamaGetChatCompletion msgs cfg net ≠ some "" ∧
    lmstudioGetChatCompletion msgs cfg net ≠ some "" ∧
    openaiGetChatCompletion msgs cfg (some none) = none ∧
    openaiGetChatCompletion msgs cfg (some (some "")) = none ∧
    ollamaGetChatCompletion msgs cfg (some none) = none ∧
    ollamaGetChatCompletion msgs cfg (some (some "")) = none ∧
    lmstudioGetChatCompletion msgs cfg (some none) = none ∧
    lmstudioGetChatCompletion msgs cfg (some (some "")) = none := by
  refine ⟨?_, ?_, ?_, ?_, ?_, ?_, ?_, ?_, ?_⟩
  · unfold openaiGetChatCompletion
    split
    · simp
    · exact completionText_ne_empty net
  · unfold ollamaGetChatCompletion
    split
    · simp
    · exact completionText_ne_empty net
  · unfold lmstudioGetChatCompletion
    split
    · simp
    · exact completionText_ne_empty net
  · unfold openaiGetChatCompletion; split <;> rfl
  · unfold openaiGetChatCompletion; split <;> rfl
  · unfold ollamaGetChatCompletion; split <;> rfl
  · unfold ollamaGetChatCompletion; split <;> rfl
  · unfold lmstudioGetChatCompletion; split <;> rfl
  · unfold lmstudioGetChatCompletion; split <;> rfl

/-- Pushing the in-progress draft preserves the order invariant on the
draft list. -/
theorem ordersOk_pushCurrent (st : ParseState) (h : ordersOk st) :
    (pushCurrent st).map Draft.order = List.range (pushCurrent st).length := by
  unfold pushCurrent
  cases hcur : st.cur with
  | none => exact h.1
  | some d =>
      dsimp only
      split
      · rw [List.map_append, h.1]
        simp [List.range_succ, h.2 d hcur]
      · exact h.1

/-- The "Description:" branch preserves the order invariant. -/
theorem ordersOk_descStep (st : ParseState) (t : String) (h : ordersOk st) :
    ordersOk (descStep st t) := by
  unfold descStep
  cases hcur : st.cur with
  | none => exact h
  | some d =>
      dsimp only
      split
      · exact ⟨h.1, fun d' hd' => by
          rw [← Option.some.inj hd']
          exact h.2 d hcur⟩
      · exact h

/-- The accumulation branch preserves the order invariant. -/
theorem ordersOk_accumStep (st : ParseState) (t : String) (h : ordersOk st) :
    ordersOk (accumStep st t) := by
  unfold accumStep
  cases hcur : st.cur with
  | none => exact h
  | some d =>
      dsimp only
      split
      · exact ⟨h.1, fun d' hd' => by
          rw [← Option.some.inj hd']
          exact h.2 d hcur⟩
      · exact h

/-- The parser loop body preserves the order invariant. -/
theorem ordersOk_parseStep (st : ParseState) (line : String) (h : ordersOk st) :
    ordersOk (parseStep st line) := by
  simp only [parseStep]
  split
  · exact ⟨ordersOk_pushCurrent st h, fun d' hd' => by
      rw [← Option.some.inj hd']⟩
  · split
    · exact ordersOk_descStep st _ h
    · exact ordersOk_accumStep st _ h

/-- The order invariant holds after folding the loop over any line list. -/
theorem ordersOk_foldl (lines : List String) :
    ∀ st, ordersOk st → ordersOk (lines.foldl parseStep st) := by
  induction lines with
  | nil => intro st h; exact h
  | cons l rest ih => intro st h; exact ih _ (ordersOk_parseStep st l h)

/-- The pre-filter draft list carries orders `0, 1, ..., n-1`. -/
theorem planDrafts_orders (s : String) :
    (planDrafts s).map Draft.order = List.range (planDrafts s).length := by
  have h : ordersOk ((splitLines s).foldl parseStep ⟨[], none, false⟩) :=
    ordersOk_foldl (splitLines s) ⟨[], none, false⟩
      ⟨rfl, fun d hd => Option.noConfusion hd⟩
  unfold planDrafts finalizeDrafts
  cases hcur : ((splitLines s).foldl parseStep ⟨[], none, false⟩).cur with
  | none => exact h.1
  | some d =>
      dsimp only
      split
      · rw [List.map_append, h.1]
        simp [List.range_succ, h.2 d hcur]
      · exact h.1

/-- C2 (amended): a non-null parser result is a sublist of the pre-filter
draft list, whose orders are exactly `0..n-1` in appearance order; hence
the returned drafts keep their appearance order (their `order` fields are
strictly increasing) and each draft's `order` field is its index in the
pre-filter list — not necessarily its index in the filtered output. -/
theorem c2_amended (s : String) (l : List Draft)
    (h : parseEbookPlanResponse s = some l) :
    l.Sublist (planDrafts s) ∧
    (l.map Draft.order).Pairwise (· < ·) ∧
    (planDrafts s).map Draft.order = List.range (planDrafts s).length := by
  have hsub : l.Sublist (planDrafts s) := by
    unfold parseEbookPlanResponse at h
    split at h
    · rw [← Option.some.inj h]
      exact List.filter_sublist _
    · exact Option.noConfusion h
  refine ⟨hsub, ?_, planDrafts_orders s⟩
  have hmap : (l.map Draft.order).Sublist ((planDrafts s).map Draft.order) :=
    hsub.map _
  rw [planDrafts_orders s] at hmap
  exact List.Pairwise.sublist hmap (List.pairwise_lt_range _)

/-- C2 (witness): a one-chapter input, where the returned draft list is a
sublist of the pre-filter drafts with strictly increasing orders. -/
theorem c2_amended_witness :
    parseEbookPlanResponse "Chapter 1: X\nDescription: y" = some [⟨"X", "y", "", 0⟩] ∧
    ([(⟨"X", "y", "", 0⟩ : Draft)]).Sublist (planDrafts "Chapter 1: X\nDescription: y") ∧
    (([(⟨"X", "y", "", 0⟩ : Draft)]).map Draft.order).Pairwise (· < ·) := by
  have h : parseEbookPlanResponse "Chapter 1: X\nDescription: y" =
      some [⟨"X", "y", "", 0⟩] := by decide
  have h2 := c2_amended "Chapter 1: X\nDescription: y" [⟨"X", "y", "", 0⟩] h
  exact ⟨h, h2.1, h2.2.1⟩

/-- The workflow loop's boolean tracks exactly the generation outcomes:
it returns its accumulator and-ed with "every remaining provider call
produced content" (the save helper always reports success). -/
theorem seqGo_flag (gen : Nat → Option String) (f : Nat → Bool) :
    ∀ (l : List Chapter) (db : DBState) (i : Nat) (s : Bool),
      (seqGo gen f db l i s).2 =
        (s && (List.range l.length).all fun j => (gen (i + j)).isSome) := by
  intro l
  induction l with
  | nil => intro db i s; simp [seqGo]
  | cons c rest ih =>
      intro db i s
      simp only [seqGo]
      cases hg : gen i with
      | some content =>
          rw [ih _ (i + 1) _]
          simp only [handleChapterContentResponse, Bool.and_true, List.length_cons,
            List.range_succ_eq_map, List.all_cons, List.all_map]
          have hcomp : ((fun j => (gen (i + j)).isSome) ∘ Nat.succ) =
              fun j => (gen (i + (j + 1))).isSome := by
            funext j
            show (gen (i + Nat.succ j)).isSome = (gen (i + (j + 1))).isSome
            rfl
          have hfun : (fun j => (gen (i + 1 + j)).isSome) =
              fun j => (gen (i + (j + 1))).isSome := by
            funext j
            have hj : i + 1 + j = i + (j + 1) := by omega
            rw [hj]
          rw [hcomp, hfun]
          simp only [Nat.add_zero, hg, Option.isSome_some, Bool.true_and]
      | none =>
          rw [ih _ (i + 1) _]
          simp [hg, List.range_succ_eq_map]

/-- C4 (amended): whenever the project exists and the start chapter is
found at index k, the workflow returns true exactly when every iterated
chapter's provider call produced content.  Persistence failures do not
influence the boolean: the save helper swallows the store error (see the
counterexample), so the claimed "generated and persisted" reduces to
"generated". -/
theorem c4_amended (db : DBState) (pid sid : Nat) (gen : Nat → Option String)
    (f : Nat → Bool) (proj : Project) (hp : getProjectById db pid = some proj)
    (k : Nat) (hk : findIdxById (getChaptersByProjectId db pid) sid = some k) :
    (generateChapterSequenceContent db pid sid gen f).2 = true ↔
      ∀ j, j < ((getChaptersByProjectId db pid).drop k).length →
        (gen (k + j)).isSome := by
  unfold generateChapterSequenceContent
  simp only [hp, hk]
  rw [seqGo_flag gen f _ db k true]
  simp only [Bool.true_and]
  rw [List.all_eq_true]
  simp [List.mem_range]

/-- C4 (witness): the spec's scenario — three chapters, start at the
second, provider fails for it but succeeds for the third: the third
chapter's content is persisted, the second's is not, and the workflow
returns false. -/
theorem c4_amended_witness :
    getProjectById exDb3 1 = some exProject ∧
    findIdxById (getChaptersByProjectId exDb3 1) 11 = some 1 ∧
    (generateChapterSequenceContent exDb3 1 11 exGen (fun _ => false)).2 = false ∧
    getChapterById (generateChapterSequenceContent exDb3 1 11 exGen (fun _ => false)).1 12 =
      some { exChapter 12 2 with content := some "c3", updatedAt := 5 } ∧
    getChapterById (generateChapterSequenceContent exDb3 1 11 exGen (fun _ => false)).1 11 =
      some (exChapter 11 1) := by
  have hp : getProjectById exDb3 1 = some exProject := by decide
  have hk : findIdxById (getChaptersByProjectId exDb3 1) 11 = some 1 := by decide
  have hiff := c4_amended exDb3 1 11 exGen (fun _ => false) exProject hp 1 hk
  have hfalse : (generateChapterSequenceContent exDb3 1 11 exGen (fun _ => false)).2 = false := by
    cases hb : (generateChapterSequenceContent exDb3 1 11 exGen (fun _ => false)).2 with
    | false => rfl
    | true => exact absurd (hiff.mp hb) (by decide)
  exact ⟨hp, hk, hfalse, by decide, by decide⟩

/-- Stripping a literal off its own concatenation. -/
theorem dropLit_self (p : List Char) : ∀ r, dropLit p (p ++ r) = some r := by
  induction p with
  | nil => intro r; rfl
  | cons c ps ih => intro r; simp [dropLit, ih]

/-- A successful literal strip decomposes the input. -/
theorem dropLit_eq_append : ∀ (p cs r : List Char), dropLit p cs = some r →
    cs = p ++ r := by
  intro p
  induction p with
  | nil =>
      intro cs r h
      simpa using Option.some.inj h
  | cons a ps ih =>
      intro cs r h
      cases cs with
      | nil => exact Option.noConfusion h
      | cons c cs' =>
          unfold dropLit at h
          split at h
          · rename_i hca
            subst hca
            simp [ih cs' r h]
          · exact Option.noConfusion h

/-- `takeWhile` walks through a block that wholly satisfies the predicate. -/
theorem takeWhile_append_all {p : Char → Bool} :
    ∀ (w t : List Char), (∀ c ∈ w, p c = true) →
      (w ++ t).takeWhile p = w ++ t.takeWhile p := by
  intro w
  induction w with
  | nil => intro t _; rfl
  | cons a ws ih =>
      intro t hall
      rw [List.cons_append,
        List.takeWhile_cons_of_pos (hall a (List.mem_cons_self a ws)),
        ih t (fun c hc => hall c (List.mem_cons_of_mem a hc)), List.cons_append]

/-- `dropWhile` walks through a block that wholly satisfies the predicate. -/
theorem dropWhile_append_all {p : Char → Bool} :
    ∀ (w t : List Char), (∀ c ∈ w, p c = true) →
      (w ++ t).dropWhile p = t.dropWhile p := by
  intro w
  induction w with
  | nil => intro t _; rfl
  | cons a ws ih =>
      intro t hall
      rw [List.cons_append,
        List.dropWhile_cons_of_pos (hall a (List.mem_cons_self a ws)),
        ih t (fun c hc => hall c (List.mem_cons_of_mem a hc))]

/-- `takeWhile` keeps a list all of whose elements satisfy the predicate. -/
theorem takeWhile_all_true {p : Char → Bool} :
    ∀ l : List Char, (∀ c ∈ l, p c = true) → l.takeWhile p = l := by
  intro l
  induction l with
  | nil => intro _; rfl
  | cons a as ih =>
      intro h
      rw [List.takeWhile_cons_of_pos (h a (List.mem_cons_self a as)),
        ih (fun c hc => h c (List.mem_cons_of_mem a hc))]

/-- `dropWhile` is idempotent. -/
theorem dropWhile_idem (p : Char → Bool) (l : List Char) :
    (l.dropWhile p).dropWhile p = l.dropWhile p := by
  induction l with
  | nil => rfl
  | cons a l ih =>
      by_cases ha : p a = true
      · rw [List.dropWhile_cons_of_pos ha]
        exact ih
      · rw [List.dropWhile_cons_of_neg ha, List.dropWhile_cons_of_neg ha]

/-- Trimming is unchanged by first dropping leading whitespace. -/
theorem jsTrimList_dropWhile (r : List Char) :
    jsTrimList (r.dropWhile isJsWs) = jsTrimList r := by
  unfold jsTrimList
  rw [dropWhile_idem]

/-- A whitespace character is not a digit. -/
theorem ws_not_digit (c : Char) (h : isJsWs c = true) : c.isDigit = false := by
  unfold isJsWs at h
  simp only [Bool.or_eq_true, decide_eq_true_eq] at h
  rcases h with ((((rfl | rfl) | rfl) | rfl) | rfl) | rfl <;> decide

/-- A digit is not whitespace. -/
theorem digit_not_ws (c : Char) (h : c.isDigit = true) : isJsWs c = false := by
  cases hc : isJsWs c with
  | false => rfl
  | true =>
      rw [ws_not_digit c hc] at h
      exact absurd h Bool.false_ne_true

/-- The regex on a structurally well-formed header
`"Chapter" ++ whitespace+ ++ digits+ ++ ":" ++ rest` captures `rest`
stripped of its leading whitespace and truncated at the first line
terminator (the dot of `(.*)` does not cross one). -/
theorem matchChapterRegex_structured (w d r : List Char)
    (hw : w ≠ []) (hwall : ∀ c ∈ w, isJsWs c = true)
    (hd : d ≠ []) (hdall : ∀ c ∈ d, c.isDigit = true) :
    matchChapterRegex ("Chapter".data ++ (w ++ (d ++ (':' :: r)))) =
      some ((r.dropWhile isJsWs).takeWhile fun c => !isLineTerm c) := by
  obtain ⟨a, ds, rfl⟩ : ∃ a ds, d = a :: ds := by
    cases d with
    | nil => exact absurd rfl hd
    | cons a ds => exact ⟨a, ds, rfl⟩
  have hnw : isJsWs a = false := digit_not_ws a (hdall a (List.mem_cons_self a ds))
  have hT1 : (w ++ ((a :: ds) ++ ':' :: r)).takeWhile isJsWs = w := by
    rw [takeWhile_append_all w _ hwall, List.cons_append,
      List.takeWhile_cons_of_neg (by simp [hnw]), List.append_nil]
  have hD1 : (w ++ ((a :: ds) ++ ':' :: r)).dropWhile isJsWs = (a :: ds) ++ ':' :: r := by
    rw [dropWhile_append_all w _ hwall, List.cons_append,
      List.dropWhile_cons_of_neg (by simp [hnw])]
  have hT2 : ((a :: ds) ++ ':' :: r).takeWhile Char.isDigit = a :: ds := by
    rw [takeWhile_append_all _ _ hdall, List.takeWhile_cons_of_neg (by decide),
      List.append_nil]
  have hD2 : ((a :: ds) ++ ':' :: r).dropWhile Char.isDigit = ':' :: r := by
    rw [dropWhile_append_all _ _ hdall, List.dropWhile_cons_of_neg (by decide)]
  unfold matchChapterRegex
  rw [dropLit_self]
  simp only [hT1, hD1, hT2, hD2]
  rw [if_neg (by simp [List.isEmpty_iff, hw]), if_neg (by simp [List.isEmpty_iff])]

/-- C8 (amended): the parser's header-title extraction uses the regex
`/^Chapter\s+\d+:\s*(.*)/` — a header of shape
"Chapter" + whitespace + number + ":" + rest, where rest contains no line
terminator (the capture dot stops at one, e.g. at an interior `\r`), gets
the trimmed rest as title, while any line starting with "Chapter" that
contains no colon at all gets the placeholder "Untitled Chapter".  (A
line starting with "Chapter" that contains a colon but lacks the number
pattern also gets the placeholder — see the counterexample.) -/
theorem c8_amended :
    (∀ w d r : List Char, w ≠ [] → (∀ c ∈ w, isJsWs c = true) → d ≠ [] →
      (∀ c ∈ d, c.isDigit = true) → (∀ c ∈ r, isLineTerm c = false) →
      headerTitleL ("Chapter".data ++ (w ++ (d ++ (':' :: r)))) = jsTrimList r) ∧
    (∀ cs : List Char, startsWithL "Chapter".data cs = true → ':' ∉ cs →
      headerTitleL cs = "Untitled Chapter".data) := by
  constructor
  · intro w d r hw hwall hd hdall hterm
    unfold headerTitleL
    rw [matchChapterRegex_structured w d r hw hwall hd hdall]
    have hsub : ∀ c ∈ r.dropWhile isJsWs, (!isLineTerm c) = true := fun c hc => by
      rw [hterm c ((List.dropWhile_sublist isJsWs).subset hc)]
      rfl
    show jsTrimList ((r.dropWhile isJsWs).takeWhile fun c => !isLineTerm c) = jsTrimList r
    rw [takeWhile_all_true _ hsub]
    exact jsTrimList_dropWhile r
  · intro cs hstart hnc
    unfold headerTitleL
    suffices h : matchChapterRegex cs = none by rw [h]
    unfold matchChapterRegex
    cases hdl : dropLit "Chapter".data cs with
    | none => rfl
    | some rest =>
        have hcs : cs = "Chapter".data ++ rest := dropLit_eq_append _ cs rest hdl
        have hrest : ':' ∉ rest := fun hmem =>
          hnc (hcs ▸ List.mem_append_right _ hmem)
        dsimp only
        split
        · rfl
        · split
          · rfl
          · split
            · rename_i rest3 heq
              have h1 : ':' ∈ (rest.dropWhile isJsWs).dropWhile Char.isDigit := by
                rw [heq]
                exact List.mem_cons_self ':' rest3
              have h2 : ':' ∈ rest.dropWhile isJsWs :=
                (List.dropWhile_sublist Char.isDigit).subset h1
              have h3 : ':' ∈ rest := (List.dropWhile_sublist isJsWs).subset h2
              exact absurd h3 hrest
            · rfl

/-- C8 (witness): the amended rule at concrete header lines —
"Chapter 1: Intro" (written as its structural decomposition) yields the
trimmed title "Intro"; a colon-free header yields the placeholder. -/
theorem c8_amended_witness :
    headerTitleL ("Chapter".data ++ ([' '] ++ (['1'] ++ (':' :: " Intro".data)))) =
      jsTrimList " Intro".data ∧
    headerTitleL "Chapterhouse Dune".data = "Untitled Chapter".data ∧
    jsTrimList " Intro".data = "Intro".data := by
  refine ⟨c8_amended.1 [' '] ['1'] " Intro".data (by decide) (by decide) (by decide)
    (by decide) (by decide),
    c8_amended.2 "Chapterhouse Dune".data (by decide) (by decide), by decide⟩

end Spellbook
